import Mathlib

/-!
Verification of the siglent-bin2sr converter.

The development shallowly embeds the two Go source files of the repository:

* `convert.go` / the multi-channel conversion driver (`main`): header-derived
  per-channel scale/offset, the per-sample conversion loop with decimation and
  start-offset discarding, and the orchestration over up to 4 channels.
* `sr_writer.go`: the srzip container writer (`SrZip`, `AnalogChannel`,
  `update`, `Write`, `NewAnalogChannel`, `Close`, `SamplesLimit`).

Modelling conventions:

* Go `float64` arithmetic is modelled by exact rational arithmetic over `ℚ`
  (the literal `10.7` becomes `107/10`).  The final cast to `float32` is a
  value-preserving output step for the properties considered here; rounding
  error of the binary floats is not modelled.
* The shared buffered input stream is modelled as a total function
  `data : ℕ → ℕ` giving the byte at each stream position, together with an
  explicit cursor; the number of channels actually present in the input is an
  explicit parameter (the Go code detects it by peeking for EOF).
* The zip archive is modelled by an event log: creating an entry appends a
  `created` event (the zip library hands back a writer, modelled as the ordinal
  of the entry), and writing one 4-byte sample through a writer appends a
  `wrote` event for that ordinal.  Entry creation can be made to fail by
  listing the entry name in an environment list `env`, modelling I/O faults of
  the external zip library; names not listed are created successfully.
* Go panics (nil-writer dereference, read past end) are modelled by `Option`,
  with `none` for the aborted run.
-/

namespace SiglentSr

/-- The per-channel scale factor precomputed before the loop in the source:
`valueScaler := scale * 10.7 / 256`. -/
def valueScaler (scale : ℚ) : ℚ := scale * (107 / 10) / 256

/-- The per-sample computation of the conversion loop body:
`v2 := float64(int(v)-128) * valueScaler; v2 -= offset`. -/
def sampleValue (b : ℕ) (vs offset : ℚ) : ℚ := ((b : ℚ) - 128) * vs - offset

/-- The full per-sample transform: raw byte with effective scale and offset. -/
def sampleTransform (b : ℕ) (scale offset : ℚ) : ℚ :=
  sampleValue b (valueScaler scale) offset

/-- The per-channel conversion loop (`for ; i < uint(dataSpec.Points); i++`),
with `skip` the source's `decimateSkip` variable, `P` the point count, and the
byte at channel-relative position `k` being `data k`.  Returns the list of
emitted values and the final value of the loop index `i`, which equals the
number of bytes of the channel consumed (reads plus discards).  The `fuel`
argument bounds the number of iterations; it is instantiated with `P - i`,
which suffices because `i` strictly increases each iteration. -/
def convLoop (skip P : ℕ) (data : ℕ → ℕ) (vs offset : ℚ) : ℕ → ℕ → List ℚ × ℕ
  | 0, i => ([], i)
  | fuel + 1, i =>
    if i < P then
      let b := data i
      let i2 := if 0 < skip ∧ i + skip < P then i + skip else i
      let r := convLoop skip P data vs offset fuel (i2 + 1)
      (sampleValue b vs offset :: r.1, r.2)
    else ([], i)

/-- One channel pass of the loop for decimation factor `d ≥ 1`
(`decimateSkip := uint(*decimate) - 1`), starting at loop index `start`
(which is `startPoint` after the start-offset discard, else `0`). -/
def runChannelLoop (d P : ℕ) (data : ℕ → ℕ) (vs offset : ℚ) (start : ℕ) :
    List ℚ × ℕ :=
  convLoop (d - 1) P data vs offset (P - start) start

/-- The concrete 4-byte input stream of the C8 scenario. -/
def scenarioBytes : ℕ → ℕ := fun k => [128, 138, 118, 128].getD k 0

/-- Maximum number of samples in each file part (`SamplesLimit = 0x280000`). -/
def SamplesLimit : ℕ := 0x280000

/-- One observable action on the zip archive: creation of a named entry, or
one 4-byte little-endian float32 sample written through the writer handle of
an already-created entry (handles are the creation ordinals of entries). -/
inductive ZipEvent
  | created (name : String)
  | wrote (handle : ℕ)
deriving DecidableEq, Repr

/-- The state of the zip archive: the log of actions, in order. -/
structure ZipState where
  log : List ZipEvent
deriving DecidableEq, Repr

/-- The entry name carried by a `created` event, if any. -/
def entryNameOf : ZipEvent → Option String
  | .created n => some n
  | .wrote _ => none

/-- Names of the entries created so far, in creation order. -/
def createdNames (st : ZipState) : List String := st.log.filterMap entryNameOf

/-- Number of entries created so far. -/
def numCreated (st : ZipState) : ℕ := (createdNames st).length

/-- Number of samples written to the entry with creation ordinal `h`. -/
def countWrote (st : ZipState) (h : ℕ) : ℕ := st.log.count (ZipEvent.wrote h)

/-- Model of `zipFile.Create(name)`: fails exactly when `name` is listed in
the fault environment `env` (modelling I/O faults of the external zip
library); on success returns the writer handle for the new entry. -/
def zipCreate (env : List String) (name : String) (st : ZipState) :
    Option (ℕ × ZipState) :=
  if name ∈ env then none
  else some (numCreated st, ⟨st.log ++ [ZipEvent.created name]⟩)

/-- The `AnalogChannel` record of `sr_writer.go`: cumulative sample count,
current part number, current writer (`c.w`, `none` when no segment is open),
1-based channel index, and display name. -/
structure AnalogChannel where
  samples : ℕ
  part : ℕ
  w : Option ℕ
  channel : ℕ
  name : String
deriving DecidableEq, Repr

/-- The `SrZip` record: registered channels as (1-based index, name) pairs in
creation order, and the sample rate later recorded in the metadata. -/
structure SrZipM where
  channels : List (ℕ × String)
  sampleRate : ℕ
deriving DecidableEq, Repr

/-- The archive entry name of one channel part:
`fmt.Sprintf("analog-1-%d-%d", c.channel, c.part)`. -/
def partName (channel part : ℕ) : String :=
  "analog-1-" ++ toString channel ++ "-" ++ toString part

/-- `AnalogChannel.update`: when the cumulative count is a multiple of
`SamplesLimit`, increment the part number and open a new archive entry;
on creation failure return an error naming the channel (with the part number
already incremented and the old writer left in place, as in the source). -/
def update (env : List String) (c : AnalogChannel) (st : ZipState) :
    AnalogChannel × ZipState × Option String :=
  if c.samples % SamplesLimit = 0 then
    let part := c.part + 1
    match zipCreate env (partName c.channel part) st with
    | none =>
      ({ c with part := part }, st,
        some ("can\x27t create part for analog ch " ++ c.name))
    | some (h, st2) => ({ c with part := part, w := some h }, st2, none)
  else (c, st, none)

/-- `SrZip.NewAnalogChannel`: allocate the channel with 1-based index
`len(channels) + 1`, register it, and call `update` for the first segment.
The error returned by that first `update` is discarded, exactly as in the
source (`c.update() // initialize for the first time`). -/
def newAnalogChannel (env : List String) (sr : SrZipM) (st : ZipState)
    (name : String) : AnalogChannel × SrZipM × ZipState :=
  let c : AnalogChannel :=
    { samples := 0, part := 0, w := none,
      channel := sr.channels.length + 1, name := name }
  let sr2 : SrZipM := { sr with channels := sr.channels ++ [(c.channel, name)] }
  let r := update env c st
  (r.1, sr2, r.2.1)

/-- `AnalogChannel.Write`: write the 4 sample bytes through the current
writer (a nil writer is a Go nil-pointer panic, modelled as `none`),
increment the sample counter, and run `update`, returning its error. -/
def chanWrite (env : List String) (c : AnalogChannel) (st : ZipState) :
    Option (AnalogChannel × ZipState × Option String) :=
  match c.w with
  | none => none
  | some h =>
    let st2 : ZipState := ⟨st.log ++ [ZipEvent.wrote h]⟩
    let c2 := { c with samples := c.samples + 1 }
    some (update env c2 st2)

/-- Write `n` samples in sequence through `AnalogChannel.Write`; a panic or
a returned error (which the driver turns into a panic) aborts the run. -/
def writeN (env : List String) : ℕ → AnalogChannel → ZipState →
    Option (AnalogChannel × ZipState)
  | 0, c, st => some (c, st)
  | n + 1, c, st =>
    match chanWrite env c st with
    | some (c2, st2, none) => writeN env n c2 st2
    | _ => none

/-- Create a sequence of channels with the given names, in order, discarding
the per-channel handles (as the metadata claims only concern registration). -/
def createChannels (env : List String) (sr : SrZipM) (st : ZipState) :
    List String → SrZipM × ZipState
  | [] => (sr, st)
  | n :: ns =>
    let r := newAnalogChannel env sr st n
    createChannels env r.2.1 r.2.2 ns

/-- One `analogN=name` line of the metadata block. -/
def channelLine (ch : ℕ × String) : String :=
  "analog" ++ toString ch.1 ++ "=" ++ ch.2 ++ "\n"

/-- The channel-name lines of the metadata block, in channel order. -/
def channelLines (channels : List (ℕ × String)) : String :=
  channels.foldl (fun md ch => md ++ channelLine ch) ""

/-- The metadata text written by `SrZip.Close`: the `[device 1]` block with
the sample rate and total analog channel count, followed by one
`analogN=name` line per registered channel, in order. -/
def metadataText (sampleRate : ℕ) (channels : List (ℕ × String)) : String :=
  channels.foldl (fun md ch => md ++ channelLine ch)
    ("\n[device 1]\nsamplerate=" ++ toString sampleRate ++
      "\ntotal analog=" ++ toString channels.length ++ "\n")

/-- Invariant of one channel written into an otherwise fresh archive with no
creation faults, after `n` successful writes: `n` samples counted, part
number `n / SamplesLimit + 1`, the created entries are exactly the parts
`1 .. n / SamplesLimit + 1` of this channel (so the writer handle of part
`p` is `p - 1`), full earlier parts hold `SamplesLimit` samples each, and
the currently open part holds `n % SamplesLimit` samples. -/
def ChInv (ch : ℕ) (nm : String) (n : ℕ) (c : AnalogChannel)
    (st : ZipState) : Prop :=
  c.samples = n ∧
  c.part = n / SamplesLimit + 1 ∧
  c.w = some (n / SamplesLimit) ∧
  c.channel = ch ∧
  c.name = nm ∧
  createdNames st =
    (List.range (n / SamplesLimit + 1)).map (fun p => partName ch (p + 1)) ∧
  (∀ k, k < n / SamplesLimit → countWrote st k = SamplesLimit) ∧
  countWrote st (n / SamplesLimit) = n % SamplesLimit ∧
  (∀ k, n / SamplesLimit < k → countWrote st k = 0)

/-- The channel created by `NewAnalogChannel("Ch 1")` on a fresh, fault-free
archive, together with the container and archive state. -/
def chInit : AnalogChannel × SrZipM × ZipState :=
  newAnalogChannel [] ⟨[], 0⟩ ⟨[]⟩ "Ch 1"

/-- The channel state of the C4 witness: one sample short of the rollover
boundary, part 1 open. -/
def c4Chan : AnalogChannel := ⟨SamplesLimit - 1, 1, some 0, 1, "Ch 1"⟩

/-- Go conversion `uint(x)` of a float64: truncation, modelled as the floor
clamped at zero.  Faithful for nonnegative operands, which is the only
guarded use in the source; Go leaves the negative case unspecified. -/
def goUint (x : ℚ) : ℕ := x.floor.toNat

/-- The resolved configuration and input of one conversion run: header
fields, flags, and the shared input stream (`data k` is the byte at absolute
stream position `k`, `numCh` the number of channels present before EOF). -/
structure Config where
  scales : ℕ → ℚ
  offsets : ℕ → ℚ
  points : ℕ
  sampleRate : ℚ
  decimate : ℕ
  use10x : Bool
  applyOffset : Bool
  startOffsetMs : ℚ
  numCh : ℕ
  data : ℕ → ℕ

/-- Write one value per element of `vs` through `AnalogChannel.Write`; as in
the driver, a panic or a returned error aborts the run. -/
def writeValues (env : List String) (c : AnalogChannel) (st : ZipState) :
    List ℚ → Option (AnalogChannel × ZipState)
  | [] => some (c, st)
  | _ :: vs =>
    match chanWrite env c st with
    | some (c2, st2, none) => writeValues env c2 st2 vs
    | _ => none

/-- The effective scale of a channel: `scale *= 10` under the probe
multiplier flag. -/
def effectiveScale (cfg : Config) (chNum : ℕ) : ℚ :=
  if cfg.use10x then cfg.scales (chNum - 1) * 10 else cfg.scales (chNum - 1)

/-- The effective offset of a channel: `offset *= 10` under the probe
multiplier flag, then forced to zero when the offset toggle is off. -/
def effectiveOffset (cfg : Config) (chNum : ℕ) : ℚ :=
  if cfg.applyOffset then
    (if cfg.use10x then cfg.offsets (chNum - 1) * 10 else cfg.offsets (chNum - 1))
  else 0

/-- The start-offset discard count:
`startPoint := uint(startOffset * sampleRate / 1000)` when the start offset
is positive, else no discard. -/
def startPoint (cfg : Config) : ℕ :=
  if 0 < cfg.startOffsetMs then
    goUint (cfg.startOffsetMs * cfg.sampleRate / 1000)
  else 0

/-- The values emitted (and final loop index) for the channel pass whose
bytes begin at absolute stream position `pos`. -/
def channelValues (cfg : Config) (pos chNum : ℕ) : List ℚ × ℕ :=
  runChannelLoop cfg.decimate cfg.points (fun k => cfg.data (pos + k))
    (valueScaler (effectiveScale cfg chNum)) (effectiveOffset cfg chNum)
    (startPoint cfg)

/-- One channel iteration of the driver: open the container channel
`Ch <n>`, discard the start-offset points, run the conversion loop, and
write every emitted value.  Returns the updated container, archive state and
stream cursor (the loop's final index is exactly the bytes consumed). -/
def processChannel (env : List String) (cfg : Config) (sr : SrZipM)
    (st : ZipState) (pos chNum : ℕ) : Option (SrZipM × ZipState × ℕ) :=
  let r := newAnalogChannel env sr st ("Ch " ++ toString chNum)
  match writeValues env r.1 r.2.2 (channelValues cfg pos chNum).1 with
  | none => none
  | some (_c2, st2) =>
    some (r.2.1, st2, pos + (channelValues cfg pos chNum).2)

/-- The driver's channel loop: process `k` further channels starting with
channel number `chNum`. -/
def runChannels (env : List String) (cfg : Config) :
    ℕ → ℕ → SrZipM → ZipState → ℕ → Option (SrZipM × ZipState × ℕ)
  | _chNum, 0, sr, st, pos => some (sr, st, pos)
  | chNum, k + 1, sr, st, pos =>
    match processChannel env cfg sr st pos chNum with
    | none => none
    | some (sr2, st2, pos2) => runChannels env cfg (chNum + 1) k sr2 st2 pos2

/-- `SrZip.Close`: create the `version` entry (content `"2\n"`), then the
`metadata` entry with the metadata text, then close the archive.  Returns
the final archive state and the metadata text written. -/
def srClose (env : List String) (sr : SrZipM) (st : ZipState) :
    Option (ZipState × String) :=
  match zipCreate env "version" st with
  | none => none
  | some (_, st1) =>
    match zipCreate env "metadata" st1 with
    | none => none
    | some (_, st2) => some (st2, metadataText sr.sampleRate sr.channels)

/-- The container-mode conversion driver (`main`): reject a decimation
factor below 1, create the container with sample rate
`uint(sampleRate / float64(decimate))`, process every channel present in the
input (at most 4), then run the deferred `Close`. -/
def runConversion (env : List String) (cfg : Config) :
    Option (SrZipM × ZipState × String) :=
  if cfg.decimate < 1 then none
  else
    let sr0 : SrZipM :=
      { channels := [],
        sampleRate := goUint (cfg.sampleRate / (cfg.decimate : ℚ)) }
    match runChannels env cfg 1 (min cfg.numCh 4) sr0 ⟨[]⟩ 0 with
    | none => none
    | some (sr, st, _) =>
      match srClose env sr st with
      | none => none
      | some (st2, md) => some (sr, st2, md)

/-- Events a channel pass may append to the archive log: sample writes and
`analog-...` part creations — never the `version` or `metadata` entries. -/
def isDataEvent : ZipEvent → Prop
  | .created n => n ≠ "version" ∧ n ≠ "metadata"
  | .wrote _ => True

/-- A minimal concrete configuration for the driver-level witnesses. -/
def cfg1 : Config :=
  { scales := fun _ => 1, offsets := fun _ => 0, points := 2,
    sampleRate := 4, decimate := 1, use10x := false, applyOffset := true,
    startOffsetMs := 0, numCh := 1, data := fun _ => 128 }

/-- C1: the per-sample transform equals `(b - 128) * s * 10.7 / 256 - o`.
The source precomputes `valueScaler = s * 10.7 / 256` and multiplies by it;
over the exact rational model of the float arithmetic this regrouping is
equal to the left-to-right evaluation of the spec's formula.  Determinism and
purity are inherent: `sampleTransform` is a function of `(b, s, o)` alone. -/
theorem c1_sample_transform_formula (b : ℕ) (s o : ℚ) (hb : b ≤ 255) :
    sampleTransform b s o = ((b : ℚ) - 128) * s * (107 / 10) / 256 - o := by
  unfold sampleTransform sampleValue valueScaler
  ring

/-- Witness for C1 at the concrete input `b = 138`, `s = 1/2`, `o = 1/10`. -/
theorem c1_sample_transform_formula_witness :
    (138 : ℕ) ≤ 255 ∧
      sampleTransform 138 (1/2) (1/10) =
        ((138 : ℚ) - 128) * (1/2) * (107 / 10) / 256 - 1/10 :=
  ⟨by decide, c1_sample_transform_formula 138 (1/2) (1/10) (by decide)⟩

/-- Helper: the loop always terminates with `i = P` (every byte up to the
point count is consumed, by read or by discard), provided it starts at
`i ≤ P` and has fuel at least `P - i`. -/
theorem convLoop_final_pos (skip P : ℕ) (data : ℕ → ℕ) (vs off : ℚ) :
    ∀ fuel i, i ≤ P → P - i ≤ fuel →
      (convLoop skip P data vs off fuel i).2 = P := by
  intro fuel
  induction fuel with
  | zero =>
    intro i h1 h2
    have hip : i = P := by omega
    simp [convLoop, hip]
  | succ n ih =>
    intro i h1 h2
    by_cases hi : i < P
    · rw [convLoop, if_pos hi]
      by_cases hs : 0 < skip ∧ i + skip < P
      · simp only [if_pos hs]
        exact ih (i + skip + 1) (by omega) (by omega)
      · simp only [if_neg hs]
        exact ih (i + 1) (by omega) (by omega)
    · rw [convLoop, if_neg hi]
      omega

/-- Helper: the number of emitted samples, from loop index `i`, is
`(P - i) / (skip + 1) + (P - i) % (skip + 1)`: full strides of `skip + 1`
while a whole stride fits strictly inside the remaining range, then one
emission per remaining byte. -/
theorem convLoop_count (skip P : ℕ) (data : ℕ → ℕ) (vs off : ℚ) :
    ∀ fuel i, P - i ≤ fuel →
      (convLoop skip P data vs off fuel i).1.length =
        (P - i) / (skip + 1) + (P - i) % (skip + 1) := by
  intro fuel
  induction fuel with
  | zero =>
    intro i h2
    have hip : P - i = 0 := by omega
    simp [convLoop, hip]
  | succ n ih =>
    intro i h2
    by_cases hi : i < P
    · rw [convLoop, if_pos hi]
      by_cases hs : 0 < skip ∧ i + skip < P
      · simp only [if_pos hs, List.length_cons]
        rw [ih (i + skip + 1) (by omega)]
        have hr : P - i = (P - (i + skip + 1)) + (skip + 1) := by omega
        rw [hr, Nat.add_div_right _ (Nat.succ_pos skip), Nat.add_mod_right]
        simp only [Nat.succ_eq_add_one]
        omega
      · simp only [if_neg hs, List.length_cons]
        rw [ih (i + 1) (by omega)]
        rcases Nat.eq_zero_or_pos skip with h0 | h0
        · subst h0
          simp only [Nat.zero_add, Nat.div_one, Nat.mod_one]
          omega
        · have hle : P - i ≤ skip := by omega
          have h1' : P - i < skip + 1 := by omega
          have h2' : P - (i + 1) < skip + 1 := by omega
          rw [Nat.div_eq_of_lt h1', Nat.mod_eq_of_lt h1',
            Nat.div_eq_of_lt h2', Nat.mod_eq_of_lt h2']
          omega
    · rw [convLoop, if_neg hi]
      have hip : P - i = 0 := by omega
      simp [hip]

/-- Helper: with `skip = 0` (decimation factor 1) the loop emits the
transform of every byte from `i` to `P - 1`, in order, and ends at `P`. -/
theorem convLoop_skip_zero (P : ℕ) (data : ℕ → ℕ) (vs off : ℚ) :
    ∀ fuel i, i ≤ P → P - i ≤ fuel →
      convLoop 0 P data vs off fuel i =
        ((List.range' i (P - i)).map (fun k => sampleValue (data k) vs off),
          P) := by
  intro fuel
  induction fuel with
  | zero =>
    intro i h1 h2
    have hip : i = P := by omega
    simp [convLoop, hip]
  | succ n ih =>
    intro i h1 h2
    by_cases hi : i < P
    · rw [convLoop, if_pos hi]
      have hcond : ¬(0 < (0 : ℕ) ∧ i + 0 < P) := by simp
      simp only [if_neg hcond]
      rw [ih (i + 1) (by omega) (by omega)]
      have hr : P - i = (P - (i + 1)) + 1 := by omega
      rw [hr, List.range'_succ]
      simp
    · rw [convLoop, if_neg hi]
      have hip : i = P := by omega
      simp [hip]

/-- C2 counterexample: with decimation factor `d = 3` and `P = 5` points the
loop emits 3 samples, while `ceil(5/3) = 2`.  (Near the end the code skips
nothing rather than "the samples that remain", so every trailing byte is
emitted.) -/
theorem c2_ceil_counterexample :
    (runChannelLoop 3 5 (fun _ => 0) 0 0 0).1.length = 3 ∧
      (5 + 3 - 1) / 3 = 2 ∧ (3 : ℕ) ≠ 2 := by
  refine ⟨?_, by decide, by decide⟩
  decide

/-- C2 (amended): for decimation factor `d ≥ 1`, point count `P` and no start
offset, the loop emits exactly `P / d + P % d` samples: after emitting the
sample at index `i` it skips the next `d - 1` raw samples only when
`i + d - 1 < P`; otherwise it skips nothing and emits every remaining raw
sample. -/
theorem c2_decimation_count (d P : ℕ) (data : ℕ → ℕ) (vs off : ℚ)
    (hd : 1 ≤ d) :
    (runChannelLoop d P data vs off 0).1.length = P / d + P % d := by
  unfold runChannelLoop
  rw [convLoop_count (d - 1) P data vs off (P - 0) 0 (le_refl _)]
  have hd1 : d - 1 + 1 = d := by omega
  rw [hd1]
  simp

/-- Witness for C2 (amended) at `d = 3`, `P = 5`: `5 / 3 + 5 % 3 = 3`. -/
theorem c2_decimation_count_witness :
    (1 : ℕ) ≤ 3 ∧
      (runChannelLoop 3 5 (fun _ => 1) 0 0 0).1.length = 5 / 3 + 5 % 3 :=
  ⟨by decide, c2_decimation_count 3 5 (fun _ => 1) 0 0 (by decide)⟩

/-- C7: for decimation factor `d = 1` and no start offset the pass is the
identity on sample selection: all `P` raw bytes are read and emitted in
order (and the pass ends having consumed exactly `P` bytes). -/
theorem c7_identity_decimation (P : ℕ) (data : ℕ → ℕ) (vs off : ℚ) :
    runChannelLoop 1 P data vs off 0 =
      ((List.range P).map (fun k => sampleValue (data k) vs off), P) := by
  unfold runChannelLoop
  rw [convLoop_skip_zero P data vs off (P - 0) 0 (Nat.zero_le _) (le_refl _)]
  rw [List.range_eq_range']
  simp

/-- C9: a channel pass with decimation factor `d ≥ 1` and start-offset
discard `start ≤ P` consumes exactly `P` bytes of the shared stream:
`start` discarded up front, plus reads and decimation discards, always
ending with the loop index (equal to the bytes consumed) at `P`.  Hence the
next channel's data always begins exactly `P` bytes after this channel's. -/
theorem c9_pass_consumes_point_count (d P start : ℕ) (data : ℕ → ℕ)
    (vs off : ℚ) (hd : 1 ≤ d) (hs : start ≤ P) :
    (runChannelLoop d P data vs off start).2 = P :=
  convLoop_final_pos (d - 1) P data vs off (P - start) start hs (le_refl _)

/-- Witness for C9 at `d = 3`, `P = 7`, `start = 2`. -/
theorem c9_pass_consumes_point_count_witness :
    (1 : ℕ) ≤ 3 ∧ (2 : ℕ) ≤ 7 ∧
      (runChannelLoop 3 7 (fun k => k) 0 0 2).2 = 7 :=
  ⟨by decide, by decide,
    c9_pass_consumes_point_count 3 7 2 (fun k => k) 0 0 (by decide) (by decide)⟩

/-- Helper: the four values emitted for the C8 scenario, computed exactly. -/
theorem scenario_values_eq :
    runChannelLoop 1 4 scenarioBytes (valueScaler (1/2)) (1/10) 0 =
      ([-(1/10), 279/2560, -(791/2560), -(1/10)], 4) := by
  show convLoop 0 4 scenarioBytes (valueScaler (1/2)) (1/10) 4 0 = _
  rw [convLoop_skip_zero 4 scenarioBytes (valueScaler (1/2)) (1/10) 4 0
    (by omega) (by omega)]
  have hr : List.range' 0 (4 - 0) = [0, 1, 2, 3] := by decide
  rw [hr]
  simp only [List.map_cons, List.map_nil, Prod.mk.injEq, List.cons.injEq,
    and_true, List.nil_eq]
  unfold scenarioBytes sampleValue valueScaler
  norm_num

/-- C8 counterexample: with ch1 scale `1/2`, offset `1/10`, point count 4,
bytes `[128, 138, 118, 128]`, no decimation and no probe multiplier, the
second emitted value is `(138-128) * (1/2) * 10.7 / 256 - 1/10 = 279/2560 ≈
0.1090`, which differs from the spec's `0.3125 - 0.1 = 0.2125` by more than
`1/20` — far beyond anything "approximately equal" (or any float32 rounding)
allows. -/
theorem c8_scenario_counterexample :
    (runChannelLoop 1 4 scenarioBytes (valueScaler (1/2)) (1/10) 0).1.get? 1 =
        some (279/2560) ∧
      ¬ |(279/2560 : ℚ) - (3125/10000 - 1/10)| < 1/20 := by
  constructor
  · rw [congrArg Prod.fst scenario_values_eq]
    rfl
  · have habs : |(279/2560 : ℚ) - (3125/10000 - 1/10)| = 53/512 := by
      rw [abs_of_nonpos (by norm_num)]
      norm_num
    rw [habs]
    norm_num

/-- C8 (amended): the four emitted values are exactly
`[-1/10, 279/2560, -791/2560, -1/10]`, i.e. approximately
`[-0.1, 0.208984375 - 0.1, -0.208984375 - 0.1, -0.1]` — the spec's `0.3125`
must read `0.208984375 = 10 * 0.5 * 10.7 / 256`. -/
theorem c8_scenario_values :
    runChannelLoop 1 4 scenarioBytes (valueScaler (1/2)) (1/10) 0 =
      ([-(1/10), 279/2560, -(791/2560), -(1/10)], 4) :=
  scenario_values_eq

@[simp] theorem entryNameOf_created (n : String) :
    entryNameOf (.created n) = some n := rfl

@[simp] theorem entryNameOf_wrote (h : ℕ) :
    entryNameOf (.wrote h) = none := rfl

theorem countWrote_append_wrote (l : List ZipEvent) (h k : ℕ) :
    countWrote ⟨l ++ [ZipEvent.wrote h]⟩ k =
      countWrote ⟨l⟩ k + if h = k then 1 else 0 := by
  unfold countWrote
  rw [List.count_append]
  by_cases hk : h = k
  · subst hk; simp
  · simp [List.count_singleton', hk]

theorem countWrote_append_created (l : List ZipEvent) (nm : String) (k : ℕ) :
    countWrote ⟨l ++ [ZipEvent.created nm]⟩ k = countWrote ⟨l⟩ k := by
  unfold countWrote
  rw [List.count_append]
  simp [List.count_singleton']

theorem createdNames_append_wrote (l : List ZipEvent) (h : ℕ) :
    createdNames ⟨l ++ [ZipEvent.wrote h]⟩ = createdNames ⟨l⟩ := by
  unfold createdNames
  rw [List.filterMap_append]
  simp

theorem createdNames_append_created (l : List ZipEvent) (nm : String) :
    createdNames ⟨l ++ [ZipEvent.created nm]⟩ = createdNames ⟨l⟩ ++ [nm] := by
  unfold createdNames
  rw [List.filterMap_append]
  simp

/-- Arithmetic helper: stepping the counter when the new count is not a
multiple of `SamplesLimit`. -/
theorem succ_mod_SL_ne (n : ℕ) (h : (n + 1) % SamplesLimit ≠ 0) :
    (n + 1) / SamplesLimit = n / SamplesLimit ∧
      (n + 1) % SamplesLimit = n % SamplesLimit + 1 := by
  simp only [SamplesLimit] at *
  omega

/-- Arithmetic helper: stepping the counter onto a multiple of
`SamplesLimit`. -/
theorem succ_mod_SL_eq (n : ℕ) (h : (n + 1) % SamplesLimit = 0) :
    (n + 1) / SamplesLimit = n / SamplesLimit + 1 ∧
      n % SamplesLimit + 1 = SamplesLimit := by
  simp only [SamplesLimit] at *
  omega

/-- One fault-free `Write` preserves the channel invariant, stepping the
sample count, and returns no error. -/
theorem chanWrite_step (ch : ℕ) (nm : String) (n : ℕ) (c : AnalogChannel)
    (st : ZipState) (hinv : ChInv ch nm n c st) :
    ∃ c2 st2, chanWrite [] c st = some (c2, st2, none) ∧
      ChInv ch nm (n + 1) c2 st2 := by
  obtain ⟨hs, hp, hw, hch, hnm, hnames, hfull, hlast, hnone⟩ := hinv
  simp only [chanWrite, hw]
  simp only [update, hs]
  by_cases hmod : (n + 1) % SamplesLimit = 0
  · obtain ⟨hdiv, hfill⟩ := succ_mod_SL_eq n hmod
    rw [if_pos hmod]
    have hnum : numCreated ⟨st.log ++ [ZipEvent.wrote (n / SamplesLimit)]⟩ =
        n / SamplesLimit + 1 := by
      unfold numCreated
      rw [createdNames_append_wrote, hnames]
      simp
    simp only [zipCreate, List.not_mem_nil, if_neg, hnum]
    refine ⟨_, _, rfl, rfl, ?_, ?_, hch, hnm, ?_, ?_, ?_, ?_⟩
    · simp [hp, hdiv]
    · simp [hdiv]
    · rw [createdNames_append_created, createdNames_append_wrote, hnames,
        hdiv, hp, hch]
      simp [List.range_succ]
    · intro k hk
      rw [hdiv] at hk
      rw [countWrote_append_created, countWrote_append_wrote]
      rcases Nat.lt_or_ge k (n / SamplesLimit) with hk2 | hk2
      · rw [hfull k hk2, if_neg (by omega)]
        omega
      · have hkeq : k = n / SamplesLimit := by omega
        subst hkeq
        rw [hlast, if_pos rfl]
        exact hfill
    · rw [hdiv, countWrote_append_created, countWrote_append_wrote,
        hnone _ (by omega), if_neg (by omega), hmod]
    · intro k hk
      rw [hdiv] at hk
      rw [countWrote_append_created, countWrote_append_wrote,
        hnone _ (by omega), if_neg (by omega)]
  · obtain ⟨hdiv, hstep⟩ := succ_mod_SL_ne n hmod
    rw [if_neg hmod]
    refine ⟨_, _, rfl, rfl, ?_, ?_, hch, hnm, ?_, ?_, ?_, ?_⟩
    · simp [hp, hdiv]
    · simp [hw, hdiv]
    · rw [createdNames_append_wrote, hnames, hdiv]
    · intro k hk
      rw [hdiv] at hk
      rw [countWrote_append_wrote, hfull k hk, if_neg (by omega)]
      omega
    · rw [hdiv, countWrote_append_wrote, hlast, if_pos rfl, hstep]
    · intro k hk
      rw [hdiv] at hk
      rw [countWrote_append_wrote, hnone _ hk, if_neg (by omega)]

/-- Fault-free `Write` iterated `m` times from any state satisfying the
invariant succeeds and preserves it. -/
theorem writeN_inv (ch : ℕ) (nm : String) :
    ∀ (m n : ℕ) (c : AnalogChannel) (st : ZipState), ChInv ch nm n c st →
      ∃ c2 st2, writeN [] m c st = some (c2, st2) ∧
        ChInv ch nm (n + m) c2 st2 := by
  intro m
  induction m with
  | zero =>
    intro n c st h
    exact ⟨c, st, rfl, h⟩
  | succ k ih =>
    intro n c st h
    obtain ⟨c2, st2, hw, hinv2⟩ := chanWrite_step ch nm n c st h
    obtain ⟨c3, st3, hw3, hinv3⟩ := ih (n + 1) c2 st2 hinv2
    refine ⟨c3, st3, ?_, ?_⟩
    · rw [writeN, hw]
      exact hw3
    · have : n + (k + 1) = n + 1 + k := by omega
      rw [this]
      exact hinv3

/-- The freshly created channel satisfies the invariant at `n = 0`: part 1
is already open and empty. -/
theorem chInit_inv : ChInv 1 "Ch 1" 0 chInit.1 chInit.2.2 := by
  have h1 : chInit.1 = ⟨0, 1, some 0, 1, "Ch 1"⟩ := by
    simp [chInit, newAnalogChannel, update, zipCreate, numCreated,
      createdNames, SamplesLimit]
  have h2 : chInit.2.2 = ⟨[ZipEvent.created (partName 1 1)]⟩ := by
    simp [chInit, newAnalogChannel, update, zipCreate, numCreated,
      createdNames, SamplesLimit]
  rw [h1, h2]
  refine ⟨rfl, by simp, by simp, rfl, rfl, ?_, ?_, ?_, ?_⟩
  · decide
  · intro k hk
    simp at hk
  · simp [countWrote]
  · intro k hk
    simp [countWrote]

/-- Helper: closed form of a fault-free channel run after `n` writes, from
the invariant. -/
theorem chRun_closed_form (n : ℕ) :
    ∃ c st, writeN [] n chInit.1 chInit.2.2 = some (c, st) ∧
      c.samples = n ∧
      c.part = n / SamplesLimit + 1 ∧
      numCreated st = n / SamplesLimit + 1 ∧
      createdNames st =
        (List.range (n / SamplesLimit + 1)).map (fun p => partName 1 (p + 1)) ∧
      countWrote st (n / SamplesLimit) = n % SamplesLimit ∧
      (∀ k, k < n / SamplesLimit → countWrote st k = SamplesLimit) := by
  obtain ⟨c, st, hrun, hinv⟩ :=
    writeN_inv 1 "Ch 1" n 0 chInit.1 chInit.2.2 chInit_inv
  rw [Nat.zero_add] at hinv
  obtain ⟨hs, hp, _hw, _hch, _hnm, hnames, hfull, hlast, _hnone⟩ := hinv
  refine ⟨c, st, hrun, hs, hp, ?_, hnames, hlast, hfull⟩
  unfold numCreated
  rw [hnames]
  simp

/-- C3 counterexample: writing exactly `SamplesLimit` samples to one channel
produces TWO archive entries for it, not one — `update` opens the next part
eagerly as soon as the counter reaches a multiple of `SamplesLimit`, so the
second entry exists (empty) right after the `SamplesLimit`-th write. -/
theorem c3_rollover_counterexample :
    ∃ c st, writeN [] SamplesLimit chInit.1 chInit.2.2 = some (c, st) ∧
      numCreated st = 2 ∧ numCreated st ≠ 1 ∧ countWrote st 1 = 0 := by
  obtain ⟨c, st, hrun, _hs, _hp, hnum, _hnames, hlast, _hfull⟩ :=
    chRun_closed_form SamplesLimit
  have hd : SamplesLimit / SamplesLimit = 1 :=
    Nat.div_self (by simp [SamplesLimit])
  have hm : SamplesLimit % SamplesLimit = 0 := Nat.mod_self _
  rw [hd] at hnum hlast
  rw [hm] at hlast
  exact ⟨c, st, hrun, by omega, by omega, hlast⟩

/-- C3 (amended): after `n` fault-free writes to a channel the archive holds
exactly `n / SamplesLimit + 1` entries for it, named `analog-1-1-p` for the
ordinal parts `p = 1, 2, ...` in increasing order; every part before the
current one holds exactly `SamplesLimit` samples and the current part holds
`n % SamplesLimit`.  In particular `SamplesLimit` writes yield two entries
(the second empty, opened eagerly at the rollover boundary) and
`SamplesLimit + 1` writes yield two entries with the second holding one
sample; a new part is opened exactly when the counter after increment is a
multiple of `SamplesLimit` (plus the initial part at counter zero). -/
theorem c3_segment_rollover (n : ℕ) :
    ∃ c st, writeN [] n chInit.1 chInit.2.2 = some (c, st) ∧
      c.samples = n ∧
      c.part = n / SamplesLimit + 1 ∧
      numCreated st = n / SamplesLimit + 1 ∧
      createdNames st =
        (List.range (n / SamplesLimit + 1)).map (fun p => partName 1 (p + 1)) ∧
      countWrote st (n / SamplesLimit) = n % SamplesLimit ∧
      (∀ k, k < n / SamplesLimit → countWrote st k = SamplesLimit) :=
  chRun_closed_form n

/-- C4 counterexample: when creating the very first segment entry fails,
`update` reports the error, but `NewAnalogChannel` discards it: the channel
handle is returned as usual (with no writer opened), the archive is
untouched, and no error reaches the caller — the failure is silent. -/
theorem c4_discarded_failure_counterexample :
    (update [partName 1 1] ⟨0, 0, none, 1, "Ch 1"⟩ ⟨[]⟩).2.2 =
        some ("can\x27t create part for analog ch Ch 1") ∧
      newAnalogChannel [partName 1 1] ⟨[], 0⟩ ⟨[]⟩ "Ch 1" =
        (⟨0, 1, none, 1, "Ch 1"⟩, ⟨[(1, "Ch 1")], 0⟩, ⟨[]⟩) := by
  constructor
  · decide
  · decide

/-- C4 (amended): an entry-creation failure during `Write` (at a rollover
boundary) does surface to the caller, as an error whose message names the
channel; only the first creation inside `NewAnalogChannel` is discarded. -/
theorem c4_write_failure_surfaces (env : List String) (c : AnalogChannel)
    (st : ZipState) (h : ℕ) (hw : c.w = some h)
    (hmod : (c.samples + 1) % SamplesLimit = 0)
    (henv : partName c.channel (c.part + 1) ∈ env) :
    chanWrite env c st =
      some ({ c with samples := c.samples + 1, part := c.part + 1 },
        ⟨st.log ++ [ZipEvent.wrote h]⟩,
        some ("can\x27t create part for analog ch " ++ c.name)) := by
  simp only [chanWrite, hw]
  simp only [update, hmod, if_pos]
  simp [zipCreate, henv]

/-- Witness for C4 (amended) at a concrete faulting environment. -/
theorem c4_write_failure_surfaces_witness :
    c4Chan.w = some 0 ∧
    (c4Chan.samples + 1) % SamplesLimit = 0 ∧
    partName c4Chan.channel (c4Chan.part + 1) ∈ ["analog-1-1-2"] ∧
    chanWrite ["analog-1-1-2"] c4Chan ⟨[]⟩ =
      some ({ c4Chan with
              samples := c4Chan.samples + 1, part := c4Chan.part + 1 },
        ⟨(⟨[]⟩ : ZipState).log ++ [ZipEvent.wrote 0]⟩,
        some ("can\x27t create part for analog ch " ++ c4Chan.name)) :=
  ⟨rfl, by decide, by decide,
    c4_write_failure_surfaces ["analog-1-1-2"] c4Chan ⟨[]⟩ 0 rfl (by decide)
      (by decide)⟩

/-- Helper: `createChannels` registers the names with consecutive 1-based
indices continuing from the channels already present. -/
theorem createChannels_channels (env : List String) :
    ∀ (ns : List String) (sr : SrZipM) (st : ZipState),
      (createChannels env sr st ns).1.channels =
        sr.channels ++ List.enumFrom (sr.channels.length + 1) ns := by
  intro ns
  induction ns with
  | nil =>
    intro sr st
    simp [createChannels, List.enumFrom]
  | cons n ns ih =>
    intro sr st
    rw [createChannels, ih]
    simp [newAnalogChannel, List.enumFrom]

/-- Helper: the metadata fold factors into the header followed by the
channel lines. -/
theorem foldl_channelLine_factor (channels : List (ℕ × String)) :
    ∀ s : String,
      channels.foldl (fun md ch => md ++ channelLine ch) s =
        s ++ channelLines channels := by
  induction channels with
  | nil =>
    intro s
    simp [channelLines, String.append_empty]
  | cons c cs ih =>
    intro s
    rw [List.foldl_cons, ih]
    have hcons : channelLines (c :: cs) = channelLine c ++ channelLines cs := by
      show List.foldl (fun md ch => md ++ channelLine ch) "" (c :: cs) = _
      rw [List.foldl_cons, ih, String.empty_append]
    rw [hcons, String.append_assoc]

/-- C5: creating channels with names `ns`, in order, registers each exactly
once with consecutive 1-based indices (the `n`-th created channel gets index
`n`), and the metadata text written at finalization is the device header
with the sample rate and total analog count followed by one
`analog<i>=<name>` line per channel, in creation order. -/
theorem c5_metadata_lists_channels (env : List String) (ns : List String)
    (rate : ℕ) (st : ZipState) :
    (createChannels env ⟨[], rate⟩ st ns).1.channels = List.enumFrom 1 ns ∧
      metadataText rate (List.enumFrom 1 ns) =
        "\n[device 1]\nsamplerate=" ++ toString rate ++
          "\ntotal analog=" ++ toString ns.length ++ "\n" ++
          channelLines (List.enumFrom 1 ns) := by
  constructor
  · rw [createChannels_channels]
    simp
  · rw [metadataText, foldl_channelLine_factor, List.enumFrom_length]

@[simp] theorem isDataEvent_wrote (h : ℕ) : isDataEvent (.wrote h) := trivial

/-- Part entry names are never the reserved `version`/`metadata` names
(their lengths already differ). -/
theorem partName_not_reserved (ch p : ℕ) :
    partName ch p ≠ "version" ∧ partName ch p ≠ "metadata" := by
  have h9 : ("analog-1-" : String).length = 9 := by decide
  have hone : ("-" : String).length = 1 := by decide
  have hlen : 10 ≤ (partName ch p).length := by
    unfold partName
    rw [String.length_append, String.length_append, String.length_append,
      h9, hone]
    omega
  have hv : ("version" : String).length = 7 := by decide
  have hm : ("metadata" : String).length = 8 := by decide
  constructor
  · intro h
    rw [h, hv] at hlen
    omega
  · intro h
    rw [h, hm] at hlen
    omega

@[simp] theorem isDataEvent_partName (ch p : ℕ) :
    isDataEvent (.created (partName ch p)) :=
  partName_not_reserved ch p

/-- A fault-free `update` appends only data events and leaves the writer
open (opening one if at a rollover boundary). -/
theorem update_env_nil (c : AnalogChannel) (st : ZipState) :
    ∃ c2 ext, update [] c st = (c2, ⟨st.log ++ ext⟩, none) ∧
      (∀ e ∈ ext, isDataEvent e) ∧
      c2.w = (if c.samples % SamplesLimit = 0
        then some (numCreated st) else c.w) := by
  by_cases hmod : c.samples % SamplesLimit = 0
  · refine ⟨{ c with part := c.part + 1, w := some (numCreated st) },
      [ZipEvent.created (partName c.channel (c.part + 1))], ?_, ?_, ?_⟩
    · simp [update, hmod, zipCreate]
    · intro e he
      rw [List.mem_singleton] at he
      subst he
      exact isDataEvent_partName _ _
    · simp [hmod]
  · refine ⟨c, [], ?_, ?_, ?_⟩
    · simp [update, hmod]
    · intro e he
      simp at he
    · simp [hmod]

/-- A fault-free sequence of `Write`s from a channel with an open writer
succeeds, appends only data events, and leaves a writer open. -/
theorem writeValues_env_nil :
    ∀ (vs : List ℚ) (c : AnalogChannel) (st : ZipState), c.w.isSome →
      ∃ c2 ext, writeValues [] c st vs = some (c2, ⟨st.log ++ ext⟩) ∧
        (∀ e ∈ ext, isDataEvent e) ∧ c2.w.isSome := by
  intro vs
  induction vs with
  | nil =>
    intro c st hw
    refine ⟨c, [], ?_, ?_, hw⟩
    · simp [writeValues]
    · intro e he
      simp at he
  | cons v vs ih =>
    intro c st hw
    obtain ⟨h, hwh⟩ := Option.isSome_iff_exists.mp hw
    obtain ⟨c2, ext1, hupd, hdata1, hw2⟩ :=
      update_env_nil ⟨c.samples + 1, c.part, some h, c.channel, c.name⟩
        ⟨st.log ++ [ZipEvent.wrote h]⟩
    have hw2s : c2.w.isSome := by
      rw [hw2]
      split
      · simp
      · simp
    obtain ⟨c3, ext2, hrun, hdata2, hw3⟩ :=
      ih c2 ⟨(st.log ++ [ZipEvent.wrote h]) ++ ext1⟩ hw2s
    refine ⟨c3, [ZipEvent.wrote h] ++ ext1 ++ ext2, ?_, ?_, hw3⟩
    · rw [writeValues]
      simp only [chanWrite, hwh, hupd]
      rw [hrun]
      simp [List.append_assoc]
    · intro e he
      simp only [List.mem_append, List.mem_singleton] at he
      rcases he with (he | he) | he
      · subst he
        exact isDataEvent_wrote h
      · exact hdata1 e he
      · exact hdata2 e he

/-- A fault-free `NewAnalogChannel` registers the channel with the next
1-based index, creates its first part entry, and opens its writer. -/
theorem newAnalogChannel_env_nil (sr : SrZipM) (st : ZipState) (nm : String) :
    newAnalogChannel [] sr st nm =
      (⟨0, 1, some (numCreated st), sr.channels.length + 1, nm⟩,
        { sr with channels := sr.channels ++ [(sr.channels.length + 1, nm)] },
        ⟨st.log ++ [ZipEvent.created (partName (sr.channels.length + 1) 1)]⟩) := by
  simp [newAnalogChannel, update, zipCreate, SamplesLimit]

/-- A fault-free channel pass of the driver succeeds, appends only data
events, registers exactly one more channel, and keeps the sample rate. -/
theorem processChannel_env_nil (cfg : Config) (sr : SrZipM) (st : ZipState)
    (pos chNum : ℕ) :
    ∃ pos2 ext, processChannel [] cfg sr st pos chNum =
        some ({ sr with channels :=
            sr.channels ++ [(sr.channels.length + 1, "Ch " ++ toString chNum)] },
          ⟨st.log ++ ext⟩, pos2) ∧
      (∀ e ∈ ext, isDataEvent e) := by
  obtain ⟨c2, ext2, hrun, hdata2, _⟩ :=
    writeValues_env_nil (channelValues cfg pos chNum).1
      (⟨0, 1, some (numCreated st), sr.channels.length + 1,
        "Ch " ++ toString chNum⟩ : AnalogChannel)
      ⟨st.log ++ [ZipEvent.created (partName (sr.channels.length + 1) 1)]⟩
      (by simp)
  refine ⟨pos + (channelValues cfg pos chNum).2,
    [ZipEvent.created (partName (sr.channels.length + 1) 1)] ++ ext2, ?_, ?_⟩
  · simp only [processChannel, newAnalogChannel_env_nil]
    rw [hrun]
    simp [List.append_assoc]
  · intro e he
    simp only [List.mem_append, List.mem_singleton] at he
    rcases he with he | he
    · subst he
      exact isDataEvent_partName _ _
    · exact hdata2 e he

/-- A fault-free run of the driver's channel loop succeeds, appends only
data events, and keeps the sample rate. -/
theorem runChannels_env_nil (cfg : Config) :
    ∀ (k chNum : ℕ) (sr : SrZipM) (st : ZipState) (pos : ℕ),
      ∃ sr2 pos2 ext, runChannels [] cfg chNum k sr st pos =
          some (sr2, ⟨st.log ++ ext⟩, pos2) ∧
        (∀ e ∈ ext, isDataEvent e) ∧ sr2.sampleRate = sr.sampleRate := by
  intro k
  induction k with
  | zero =>
    intro chNum sr st pos
    refine ⟨sr, pos, [], ?_, ?_, rfl⟩
    · simp [runChannels]
    · intro e he
      simp at he
  | succ k ih =>
    intro chNum sr st pos
    obtain ⟨pos2, ext1, hproc, hdata1⟩ :=
      processChannel_env_nil cfg sr st pos chNum
    obtain ⟨sr3, pos3, ext2, hrun, hdata2, hrate⟩ :=
      ih (chNum + 1)
        { sr with channels :=
            sr.channels ++ [(sr.channels.length + 1, "Ch " ++ toString chNum)] }
        ⟨st.log ++ ext1⟩ pos2
    refine ⟨sr3, pos3, ext1 ++ ext2, ?_, ?_, by rw [hrate]⟩
    · rw [runChannels, hproc]
      dsimp only
      rw [hrun]
      simp [List.append_assoc]
    · intro e he
      rw [List.mem_append] at he
      rcases he with he | he
      · exact hdata1 e he
      · exact hdata2 e he

/-- Helper: the full shape of a fault-free conversion run: the channel phase
appends only data events, then the deferred `Close` appends the `version`
and `metadata` entries as the final two actions, and the metadata written
uses the container's sample rate (set to `uint(sampleRate / decimate)`). -/
theorem runConversion_env_nil (cfg : Config) (hd : 1 ≤ cfg.decimate) :
    ∃ sr ext, (∀ e ∈ ext, isDataEvent e) ∧
      sr.sampleRate = goUint (cfg.sampleRate / (cfg.decimate : ℚ)) ∧
      runConversion [] cfg =
        some (sr,
          ⟨ext ++ [ZipEvent.created "version", ZipEvent.created "metadata"]⟩,
          metadataText sr.sampleRate sr.channels) := by
  obtain ⟨sr2, pos2, ext, hrun, hdata, hrate⟩ :=
    runChannels_env_nil cfg (min cfg.numCh 4) 1
      { channels := [],
        sampleRate := goUint (cfg.sampleRate / (cfg.decimate : ℚ)) }
      ⟨[]⟩ 0
  refine ⟨sr2, ext, hdata, by rw [hrate], ?_⟩
  simp only [runConversion]
  rw [if_neg (by omega : ¬ cfg.decimate < 1)]
  rw [hrun]
  dsimp only
  simp [srClose, zipCreate]

/-- C6: in every fault-free run of the conversion, the `version` and
`metadata` entries are created exactly once each, as the final two archive
actions — strictly after every channel-data action (all part-entry
creations and all sample writes), never before any channel data and never
between channel writes. -/
theorem c6_metadata_written_last (cfg : Config) (hd : 1 ≤ cfg.decimate) :
    ∃ sr st md pre, runConversion [] cfg = some (sr, st, md) ∧
      st.log =
        pre ++ [ZipEvent.created "version", ZipEvent.created "metadata"] ∧
      ∀ e ∈ pre, isDataEvent e := by
  obtain ⟨sr, ext, hdata, _hrate, hconv⟩ := runConversion_env_nil cfg hd
  exact ⟨sr, _, _, ext, hconv, rfl, hdata⟩

/-- Witness for C6 at the concrete configuration `cfg1`. -/
theorem c6_metadata_written_last_witness :
    1 ≤ cfg1.decimate ∧
      ∃ sr st md pre, runConversion [] cfg1 = some (sr, st, md) ∧
        st.log =
          pre ++ [ZipEvent.created "version", ZipEvent.created "metadata"] ∧
        ∀ e ∈ pre, isDataEvent e :=
  ⟨by decide, c6_metadata_written_last cfg1 (by decide)⟩

/-- C10: the sample rate recorded in the metadata is the input rate divided
by the decimation factor, truncated to an unsigned integer
(`uint(sampleRate / float64(decimate))`) — not the input capture's rate
itself. -/
theorem c10_recorded_samplerate (cfg : Config) (hd : 1 ≤ cfg.decimate)
    (hr : 0 ≤ cfg.sampleRate) :
    ∃ sr st md, runConversion [] cfg = some (sr, st, md) ∧
      sr.sampleRate = ((cfg.sampleRate / (cfg.decimate : ℚ)).floor).toNat ∧
      md = metadataText ((cfg.sampleRate / (cfg.decimate : ℚ)).floor).toNat
        sr.channels := by
  obtain ⟨sr, ext, _hdata, hrate, hconv⟩ := runConversion_env_nil cfg hd
  refine ⟨sr, _, _, hconv, ?_, ?_⟩
  · rw [hrate]
    rfl
  · rw [hrate]
    rfl

/-- Witness for C10 at the concrete configuration `cfg1` (input rate 4,
decimation 1). -/
theorem c10_recorded_samplerate_witness :
    1 ≤ cfg1.decimate ∧ (0 : ℚ) ≤ cfg1.sampleRate ∧
      ∃ sr st md, runConversion [] cfg1 = some (sr, st, md) ∧
        sr.sampleRate = ((cfg1.sampleRate / (cfg1.decimate : ℚ)).floor).toNat ∧
        md = metadataText
          ((cfg1.sampleRate / (cfg1.decimate : ℚ)).floor).toNat sr.channels :=
  ⟨by decide, by norm_num [cfg1],
    c10_recorded_samplerate cfg1 (by decide) (by norm_num [cfg1])⟩

end SiglentSr
